import Mathlib

/-!
Verification of the connection/room registry and message-broadcast engine of a
WebRTC signaling server (`signaling-server-fastapi.py`).

The registry state consists of two Python dicts:
  * `active_connections : Dict[str, WebSocket]`, keyed by `f"{room_id}:{user_id}"`;
  * `room_users : Dict[str, set]`, mapping a room id to the set of its member user ids.

We embed Python dicts as association lists (`List (K × V)`) with update-in-place
insertion and first-occurrence deletion, and Python sets of strings as duplicate-free
lists.  WebSocket handles are embedded as `Nat` identifiers; a transport-failure
oracle `fails : Nat → Bool` says which handles raise on send.  Message sends are
recorded as a delivery trace of `(connection-key, socket, message)` triples.
-/

namespace Signaling

universe u v

section Dict

variable {K : Type u} {V : Type v} [DecidableEq K]

/-- Python dict lookup (`d[k]` / `d.get(k)`): first entry with the given key. -/
def dictLookup : List (K × V) → K → Option V
  | [], _ => none
  | (k₀, v₀) :: t, k => if k₀ = k then some v₀ else dictLookup t k

/-- Python dict assignment `d[k] = v`: replace the value at `k` in place, or append. -/
def dictInsert : List (K × V) → K → V → List (K × V)
  | [], k, v => [(k, v)]
  | (k₀, v₀) :: t, k, v => if k₀ = k then (k, v) :: t else (k₀, v₀) :: dictInsert t k v

/-- Python dict deletion `del d[k]`: drop the first entry with the given key. -/
def dictErase : List (K × V) → K → List (K × V)
  | [], _ => []
  | (k₀, v₀) :: t, k => if k₀ = k then t else (k₀, v₀) :: dictErase t k

@[simp] theorem dictLookup_nil (k : K) : dictLookup ([] : List (K × V)) k = none := rfl

theorem dictLookup_dictInsert_self (d : List (K × V)) (k : K) (v : V) :
    dictLookup (dictInsert d k v) k = some v := by
  induction d with
  | nil => simp [dictInsert, dictLookup]
  | cons p t ih =>
    obtain ⟨k₀, v₀⟩ := p
    by_cases h : k₀ = k
    · simp [dictInsert, dictLookup, h]
    · simp [dictInsert, dictLookup, h, ih]

theorem dictLookup_dictInsert_ne (d : List (K × V)) {k q : K} (v : V) (h : q ≠ k) :
    dictLookup (dictInsert d k v) q = dictLookup d q := by
  have hkq : k ≠ q := Ne.symm h
  induction d with
  | nil => simp [dictInsert, dictLookup, hkq]
  | cons p t ih =>
    obtain ⟨k₀, v₀⟩ := p
    by_cases hk : k₀ = k
    · subst hk
      simp [dictInsert, dictLookup, hkq]
    · simp [dictInsert, dictLookup, hk, ih]

theorem dictLookup_dictErase_ne (d : List (K × V)) {k q : K} (h : q ≠ k) :
    dictLookup (dictErase d k) q = dictLookup d q := by
  have hkq : k ≠ q := Ne.symm h
  induction d with
  | nil => simp [dictErase]
  | cons p t ih =>
    obtain ⟨k₀, v₀⟩ := p
    by_cases hk : k₀ = k
    · subst hk
      simp [dictErase, dictLookup, hkq]
    · simp [dictErase, dictLookup, hk, ih]

theorem dictErase_sublist (d : List (K × V)) (k : K) : (dictErase d k).Sublist d := by
  induction d with
  | nil => simp [dictErase]
  | cons p t ih =>
    obtain ⟨k₀, v₀⟩ := p
    by_cases hk : k₀ = k
    · simp [dictErase, hk]
    · simpa [dictErase, hk] using ih

theorem dictLookup_eq_none_of_not_mem_keys {d : List (K × V)} {k : K}
    (h : k ∉ d.map Prod.fst) : dictLookup d k = none := by
  induction d with
  | nil => rfl
  | cons p t ih =>
    obtain ⟨k₀, v₀⟩ := p
    simp only [List.map_cons, List.mem_cons] at h
    push_neg at h
    simp [dictLookup, Ne.symm h.1, ih h.2]

theorem mem_keys_of_dictLookup {d : List (K × V)} {k : K} {v : V}
    (h : dictLookup d k = some v) : k ∈ d.map Prod.fst := by
  induction d with
  | nil => simp [dictLookup] at h
  | cons p t ih =>
    obtain ⟨k₀, v₀⟩ := p
    by_cases hk : k₀ = k
    · simp [hk]
    · simp only [dictLookup, hk, if_false] at h
      simp [ih h]

theorem dictLookup_dictErase_self {d : List (K × V)} (k : K)
    (hnd : (d.map Prod.fst).Nodup) : dictLookup (dictErase d k) k = none := by
  induction d with
  | nil => simp [dictErase]
  | cons p t ih =>
    obtain ⟨k₀, v₀⟩ := p
    simp only [List.map_cons, List.nodup_cons] at hnd
    by_cases hk : k₀ = k
    · subst hk
      simpa [dictErase] using dictLookup_eq_none_of_not_mem_keys hnd.1
    · simp [dictErase, dictLookup, hk, ih hnd.2]

theorem keys_dictInsert_subset {d : List (K × V)} {k : K} {v : V} :
    ∀ q ∈ (dictInsert d k v).map Prod.fst, q = k ∨ q ∈ d.map Prod.fst := by
  induction d with
  | nil =>
    intro q hq
    rw [dictInsert] at hq
    simp only [List.map_cons, List.map_nil, List.mem_singleton] at hq
    exact Or.inl hq
  | cons p t ih =>
    obtain ⟨k₀, v₀⟩ := p
    intro q hq
    by_cases hk : k₀ = k
    · rw [dictInsert, if_pos hk, List.map_cons, List.mem_cons] at hq
      rcases hq with h1 | h1
      · exact Or.inl h1
      · exact Or.inr (by rw [List.map_cons, List.mem_cons]; exact Or.inr h1)
    · rw [dictInsert, if_neg hk, List.map_cons, List.mem_cons] at hq
      rcases hq with h1 | h1
      · exact Or.inr (by rw [List.map_cons, List.mem_cons]; exact Or.inl h1)
      · rcases ih q h1 with h2 | h2
        · exact Or.inl h2
        · exact Or.inr (by rw [List.map_cons, List.mem_cons]; exact Or.inr h2)

theorem keys_nodup_dictInsert {d : List (K × V)} (k : K) (v : V)
    (hnd : (d.map Prod.fst).Nodup) : ((dictInsert d k v).map Prod.fst).Nodup := by
  induction d with
  | nil => simp [dictInsert]
  | cons p t ih =>
    obtain ⟨k₀, v₀⟩ := p
    simp only [List.map_cons, List.nodup_cons] at hnd
    by_cases hk : k₀ = k
    · subst hk
      rw [dictInsert, if_pos rfl, List.map_cons, List.nodup_cons]
      exact hnd
    · rw [dictInsert, if_neg hk, List.map_cons, List.nodup_cons]
      refine ⟨fun hmem => ?_, ih hnd.2⟩
      rcases keys_dictInsert_subset _ hmem with h | h
      · exact hk h
      · exact hnd.1 h

theorem keys_nodup_dictErase {d : List (K × V)} (k : K)
    (hnd : (d.map Prod.fst).Nodup) : ((dictErase d k).map Prod.fst).Nodup :=
  ((dictErase_sublist d k).map Prod.fst).nodup hnd

theorem dictInsert_self {d : List (K × V)} {k : K} {v : V}
    (h : dictLookup d k = some v) : dictInsert d k v = d := by
  induction d with
  | nil => simp [dictLookup] at h
  | cons p t ih =>
    obtain ⟨k₀, v₀⟩ := p
    by_cases hk : k₀ = k
    · subst hk
      rw [dictLookup, if_pos rfl] at h
      obtain rfl : v₀ = v := Option.some.inj h
      rw [dictInsert, if_pos rfl]
    · rw [dictLookup, if_neg hk] at h
      rw [dictInsert, if_neg hk, ih h]

end Dict

/-- Python `set.add`: no-op when the element is already present. -/
def setAdd (s : List String) (u : String) : List String :=
  if u ∈ s then s else u :: s

theorem setAdd_setAdd (s : List String) (u : String) :
    setAdd (setAdd s u) u = setAdd s u := by
  have hmem : u ∈ setAdd s u := by
    by_cases hu : u ∈ s
    · rw [setAdd, if_pos hu]
      exact hu
    · rw [setAdd, if_neg hu]
      exact List.mem_cons_self u s
  rw [setAdd, if_pos hmem]

@[simp] theorem mem_setAdd {s : List String} {u a : String} :
    a ∈ setAdd s u ↔ a = u ∨ a ∈ s := by
  by_cases h : u ∈ s
  · simp only [setAdd, if_pos h]
    constructor
    · exact fun ha => Or.inr ha
    · rintro (rfl | ha)
      · exact h
      · exact ha
  · simp [setAdd, if_neg h]

theorem nodup_setAdd {s : List String} (u : String) (h : s.Nodup) :
    (setAdd s u).Nodup := by
  by_cases hu : u ∈ s
  · rw [setAdd, if_pos hu]
    exact h
  · rw [setAdd, if_neg hu]
    exact List.nodup_cons.mpr ⟨hu, h⟩

theorem setAdd_ne_nil {s : List String} {u : String} : setAdd s u ≠ [] := by
  by_cases hu : u ∈ s
  · rw [setAdd, if_pos hu]
    rintro rfl
    exact List.not_mem_nil u hu
  · rw [setAdd, if_neg hu]
    exact List.cons_ne_nil u s

/-! ## Messages and the registry state -/

/-- Server-generated wire messages (`send_json` payloads). -/
inductive Msg where
  | peerJoined (userId : String)
  | offer (fromUser : String) (sdp : String)
  | answer (fromUser : String) (sdp : String)
  | iceCandidate (fromUser : String) (candidate : String)
  | pong
  deriving DecidableEq

/-- The `ConnectionManager` state: `active_connections` is the Python dict from
connection key `"room_id:user_id"` to the WebSocket handle (a `Nat` id here);
`room_users` is the Python dict from room id to the set of member user ids. -/
structure ConnectionManager where
  active_connections : List (String × Nat)
  room_users : List (String × List String)
  deriving DecidableEq

/-- `ConnectionManager.__init__`: both dicts start empty. -/
def emptyManager : ConnectionManager := ⟨[], []⟩

/-- `key = f"{room_id}:{user_id}"`. -/
def connKey (room_id user_id : String) : String :=
  room_id ++ ":" ++ user_id

/-- One delivery record: the connection key looked up, the socket handle the
message was sent on, and the message. -/
abbrev Delivery := String × Nat × Msg

/-- `websocket.send_json(message)`: raises on a failing transport.  The oracle
`fails` says which socket handles raise. -/
def sendJson (fails : Nat → Bool) (websocket : Nat) (message : Msg) :
    Except String (Nat × Msg) :=
  if fails websocket then Except.error "transport failure"
  else Except.ok (websocket, message)

/-- `ConnectionManager.send_message`: try the send; on failure print the error and
return normally.  The result is the (zero- or one-element) list of deliveries. -/
def send_message (fails : Nat → Bool) (websocket : Nat) (message : Msg) :
    List (Nat × Msg) :=
  match sendJson fails websocket message with
  | Except.ok d => [d]
  | Except.error _ => []

/-- Body of the fan-out loops in `connect` and `broadcast_to_room`: skip the
excluded user, look the connection key up in `active_connections`, and
`send_message` on the handle found (skipping keys with no live connection). -/
def fanSend (fails : Nat → Bool) (active : List (String × Nat)) (room_id : String)
    (message : Msg) (exclude_user : Option String) (user_id : String) : List Delivery :=
  if some user_id ≠ exclude_user then
    match dictLookup active (connKey room_id user_id) with
    | some ws => (send_message fails ws message).map (fun d => (connKey room_id user_id, d))
    | none => []
  else []

/-- `ConnectionManager.connect`: store the connection under its key, add the user
to the room's set (creating the room on first join), then notify every other
member of the room with `{"type": "peer-joined", "userId": user_id}`.
Returns the updated state together with the notification deliveries; the
notification loop reads the already-updated `room_users` and
`active_connections`, exactly as the source does. -/
def connect (fails : Nat → Bool) (m : ConnectionManager)
    (room_id user_id : String) (websocket : Nat) :
    ConnectionManager × List Delivery :=
  let key := connKey room_id user_id
  let active := dictInsert m.active_connections key websocket
  let rooms :=
    if (dictLookup m.room_users room_id).isNone then
      dictInsert m.room_users room_id []
    else m.room_users
  let members := setAdd ((dictLookup rooms room_id).getD []) user_id
  let rooms := dictInsert rooms room_id members
  let sends := members.flatMap
    (fanSend fails active room_id (Msg.peerJoined user_id) (some user_id))
  (⟨active, rooms⟩, sends)

/-- `ConnectionManager.disconnect`: delete the connection key if present, discard
the user from the room's set if the room exists, and delete the room entry when
the set becomes empty.  No message is sent on any path. -/
def disconnect (m : ConnectionManager) (room_id user_id : String) :
    ConnectionManager :=
  let key := connKey room_id user_id
  let active :=
    if (dictLookup m.active_connections key).isSome then
      dictErase m.active_connections key
    else m.active_connections
  let rooms :=
    match dictLookup m.room_users room_id with
    | none => m.room_users
    | some s =>
      let s := s.erase user_id
      if s = [] then dictErase m.room_users room_id
      else dictInsert m.room_users room_id s
  ⟨active, rooms⟩

/-- `ConnectionManager.broadcast_to_room`: for each member of the room other than
`exclude_user`, look up the member's connection and `send_message` the payload.
A missing room is a silent no-op. -/
def broadcast_to_room (fails : Nat → Bool) (m : ConnectionManager) (room_id : String)
    (message : Msg) (exclude_user : Option String) : List Delivery :=
  match dictLookup m.room_users room_id with
  | none => []
  | some users =>
    users.flatMap (fanSend fails m.active_connections room_id message exclude_user)

/-! ## Registry operation sequences -/

/-- A registry operation: `join` is the state mutation performed by `connect`
(`accept` + registration; the notification fan-out does not change the state),
`leave` is `disconnect`. -/
inductive Op where
  | join (room_id user_id : String) (websocket : Nat)
  | leave (room_id user_id : String)
  deriving DecidableEq

/-- Apply one operation to the registry state.  The state reached by `connect`
does not depend on transport outcomes, so the failure oracle is irrelevant here
and fixed to all-succeed. -/
def applyOp (m : ConnectionManager) : Op → ConnectionManager
  | Op.join r u w => (connect (fun _ => false) m r u w).1
  | Op.leave r u => disconnect m r u

/-- The registry state after a sequence of operations from the empty registry. -/
def runOps (ops : List Op) : ConnectionManager :=
  ops.foldl applyOp emptyManager

/-! ## Connection keys: when `"room_id:user_id"` determines the pair

`connKey` is injective in its second argument, and injective in both arguments
as soon as the room ids contain no colon.  Room ids containing a colon make
distinct pairs collide (e.g. `("a:b", "c")` and `("a", "b:c")`), which is the
source of the counterexamples below. -/

/-- The string contains no ':' character. -/
def NoColon (s : String) : Prop := ':' ∉ s.data

instance (s : String) : Decidable (NoColon s) :=
  inferInstanceAs (Decidable (':' ∉ s.data))

theorem connKey_data (r u : String) :
    (connKey r u).data = r.data ++ ':' :: u.data := by
  rw [connKey, String.data_append, String.data_append, List.append_assoc]
  rfl

theorem connKey_inj_right {r u v : String} (h : connKey r u = connKey r v) : u = v := by
  have hd := congrArg String.data h
  rw [connKey_data, connKey_data] at hd
  exact String.ext (List.cons_injective.eq_iff.mp (List.append_cancel_left hd))

theorem append_cons_colon_inj {c : Char} :
    ∀ (a a' b b' : List Char), c ∉ a → c ∉ a' →
      a ++ c :: b = a' ++ c :: b' → a = a' ∧ b = b' := by
  intro a
  induction a with
  | nil =>
    intro a' b b' _ ha' h
    cases a' with
    | nil => simpa using h
    | cons x t =>
      simp only [List.nil_append, List.cons_append, List.cons.injEq] at h
      exfalso
      exact ha' (by simp [← h.1])
  | cons x t ih =>
    intro a' b b' ha ha' h
    cases a' with
    | nil =>
      simp only [List.cons_append, List.nil_append, List.cons.injEq] at h
      exfalso
      exact ha (by simp [h.1])
    | cons y t2 =>
      simp only [List.cons_append, List.cons.injEq] at h
      obtain ⟨rfl, h2⟩ := h
      have ht : c ∉ t := fun hc => ha (List.mem_cons_of_mem _ hc)
      have ht2 : c ∉ t2 := fun hc => ha' (List.mem_cons_of_mem _ hc)
      obtain ⟨rfl, rfl⟩ := ih t2 b b' ht ht2 h2
      exact ⟨rfl, rfl⟩

theorem connKey_inj_left {r r' u u' : String} (hr : NoColon r) (hr' : NoColon r')
    (h : connKey r u = connKey r' u') : r = r' ∧ u = u' := by
  have hd := congrArg String.data h
  rw [connKey_data, connKey_data] at hd
  obtain ⟨h1, h2⟩ := append_cons_colon_inj r.data r'.data u.data u'.data hr hr' hd
  exact ⟨String.ext h1, String.ext h2⟩

/-! ## Well-formed registry states

Python dicts cannot hold duplicate keys and Python sets cannot hold duplicate
elements, and the code prunes empty rooms, so every state the program can hold
satisfies `WF`.  Our list embedding is wider than the Python state space, so
theorems about "every registry state" take `WF` as the description of that
state space. -/

/-- The state is a faithful image of the Python data structures: dict keys are
unique and every room's member set is duplicate-free and non-empty. -/
def WF (m : ConnectionManager) : Prop :=
  (m.active_connections.map Prod.fst).Nodup ∧
  (m.room_users.map Prod.fst).Nodup ∧
  ∀ r s, dictLookup m.room_users r = some s → s.Nodup ∧ s ≠ []

theorem WF_empty : WF emptyManager := by
  refine ⟨List.nodup_nil, List.nodup_nil, fun r s h => ?_⟩
  simp [emptyManager, dictLookup] at h

/-! Lookup-level characterizations of `connect` and `disconnect`. -/

theorem connect_active (fails : Nat → Bool) (m : ConnectionManager)
    (room_id user_id : String) (websocket : Nat) :
    (connect fails m room_id user_id websocket).1.active_connections =
      dictInsert m.active_connections (connKey room_id user_id) websocket := rfl

theorem connect_rooms_lookup_self (fails : Nat → Bool) (m : ConnectionManager)
    (room_id user_id : String) (websocket : Nat) :
    dictLookup (connect fails m room_id user_id websocket).1.room_users room_id =
      some (setAdd ((dictLookup m.room_users room_id).getD []) user_id) := by
  simp only [connect]
  cases hl : dictLookup m.room_users room_id with
  | none => simp [hl, dictLookup_dictInsert_self]
  | some s => simp [hl, dictLookup_dictInsert_self]

theorem connect_rooms_lookup_ne (fails : Nat → Bool) (m : ConnectionManager)
    {room_id : String} (user_id : String) (websocket : Nat) {q : String}
    (hq : q ≠ room_id) :
    dictLookup (connect fails m room_id user_id websocket).1.room_users q =
      dictLookup m.room_users q := by
  simp only [connect]
  by_cases h0 : (dictLookup m.room_users room_id).isNone
  · rw [if_pos h0, dictLookup_dictInsert_ne _ _ hq, dictLookup_dictInsert_ne _ _ hq]
  · rw [if_neg h0, dictLookup_dictInsert_ne _ _ hq]

theorem disconnect_active (m : ConnectionManager) (room_id user_id : String) :
    (disconnect m room_id user_id).active_connections =
      if (dictLookup m.active_connections (connKey room_id user_id)).isSome then
        dictErase m.active_connections (connKey room_id user_id)
      else m.active_connections := rfl

theorem disconnect_active_lookup_self {m : ConnectionManager}
    (hnd : (m.active_connections.map Prod.fst).Nodup) (room_id user_id : String) :
    dictLookup (disconnect m room_id user_id).active_connections
      (connKey room_id user_id) = none := by
  rw [disconnect_active]
  by_cases h : (dictLookup m.active_connections (connKey room_id user_id)).isSome
  · rw [if_pos h]
    exact dictLookup_dictErase_self _ hnd
  · rw [if_neg h]
    cases hl : dictLookup m.active_connections (connKey room_id user_id) with
    | none => rfl
    | some w => rw [hl] at h; exact absurd rfl h

theorem disconnect_active_lookup_ne (m : ConnectionManager)
    {room_id user_id : String} {q : String} (hq : q ≠ connKey room_id user_id) :
    dictLookup (disconnect m room_id user_id).active_connections q =
      dictLookup m.active_connections q := by
  rw [disconnect_active]
  by_cases h : (dictLookup m.active_connections (connKey room_id user_id)).isSome
  · rw [if_pos h, dictLookup_dictErase_ne _ hq]
  · rw [if_neg h]

theorem disconnect_rooms_of_none {m : ConnectionManager} {room_id : String}
    (user_id : String) (h : dictLookup m.room_users room_id = none) :
    (disconnect m room_id user_id).room_users = m.room_users := by
  simp [disconnect, h]

theorem disconnect_rooms_of_some {m : ConnectionManager} {room_id : String}
    (user_id : String) {s : List String} (h : dictLookup m.room_users room_id = some s) :
    (disconnect m room_id user_id).room_users =
      if s.erase user_id = [] then dictErase m.room_users room_id
      else dictInsert m.room_users room_id (s.erase user_id) := by
  simp [disconnect, h]

theorem disconnect_rooms_lookup_ne (m : ConnectionManager)
    {room_id : String} (user_id : String) {q : String} (hq : q ≠ room_id) :
    dictLookup (disconnect m room_id user_id).room_users q =
      dictLookup m.room_users q := by
  cases hl : dictLookup m.room_users room_id with
  | none => rw [disconnect_rooms_of_none user_id hl]
  | some s =>
    rw [disconnect_rooms_of_some user_id hl]
    by_cases he : s.erase user_id = []
    · rw [if_pos he, dictLookup_dictErase_ne _ hq]
    · rw [if_neg he, dictLookup_dictInsert_ne _ _ hq]

theorem WF_connect {m : ConnectionManager} (hm : WF m) (fails : Nat → Bool)
    (room_id user_id : String) (websocket : Nat) :
    WF (connect fails m room_id user_id websocket).1 := by
  obtain ⟨ha, hr, hs⟩ := hm
  refine ⟨?_, ?_, fun r s h => ?_⟩
  · rw [connect_active]
    exact keys_nodup_dictInsert _ _ ha
  · show (List.map Prod.fst (dictInsert _ room_id _)).Nodup
    apply keys_nodup_dictInsert
    by_cases h0 : (dictLookup m.room_users room_id).isNone
    · rw [if_pos h0]
      exact keys_nodup_dictInsert _ _ hr
    · rwa [if_neg h0]
  · by_cases hq : r = room_id
    · subst hq
      rw [connect_rooms_lookup_self] at h
      obtain rfl := Option.some.inj h
      refine ⟨nodup_setAdd _ ?_, setAdd_ne_nil⟩
      cases hl : dictLookup m.room_users r with
      | none => simp
      | some s0 => simpa using (hs r s0 hl).1
    · rw [connect_rooms_lookup_ne _ _ _ _ hq] at h
      exact hs r s h

theorem WF_disconnect {m : ConnectionManager} (hm : WF m)
    (room_id user_id : String) : WF (disconnect m room_id user_id) := by
  obtain ⟨ha, hr, hs⟩ := hm
  refine ⟨?_, ?_, fun r s h => ?_⟩
  · rw [disconnect_active]
    by_cases h : (dictLookup m.active_connections (connKey room_id user_id)).isSome
    · rw [if_pos h]
      exact keys_nodup_dictErase _ ha
    · rwa [if_neg h]
  · cases hl : dictLookup m.room_users room_id with
    | none => rwa [disconnect_rooms_of_none user_id hl]
    | some s =>
      rw [disconnect_rooms_of_some user_id hl]
      by_cases he : s.erase user_id = []
      · rw [if_pos he]
        exact keys_nodup_dictErase _ hr
      · rw [if_neg he]
        exact keys_nodup_dictInsert _ _ hr
  · by_cases hq : r = room_id
    · subst hq
      cases hl : dictLookup m.room_users r with
      | none =>
        rw [disconnect_rooms_of_none user_id hl, hl] at h
        exact absurd h (by simp)
      | some s0 =>
        rw [disconnect_rooms_of_some user_id hl] at h
        by_cases he : s0.erase user_id = []
        · rw [if_pos he, dictLookup_dictErase_self _ hr] at h
          exact absurd h (by simp)
        · rw [if_neg he, dictLookup_dictInsert_self] at h
          obtain rfl := Option.some.inj h
          exact ⟨(hs _ _ hl).1.erase _, he⟩
    · rw [disconnect_rooms_lookup_ne _ _ hq] at h
      exact hs r s h

theorem WF_applyOp {m : ConnectionManager} (hm : WF m) (op : Op) :
    WF (applyOp m op) := by
  cases op with
  | join r u w => exact WF_connect hm _ r u w
  | leave r u => exact WF_disconnect hm r u

theorem WF_foldl {m : ConnectionManager} (hm : WF m) (ops : List Op) :
    WF (ops.foldl applyOp m) := by
  induction ops generalizing m with
  | nil => exact hm
  | cons op t ih => exact ih (WF_applyOp hm op)

theorem WF_runOps (ops : List Op) : WF (runOps ops) :=
  WF_foldl WF_empty ops

/-! ## Membership consistency (invariant I1)

As stated in the spec, the invariant is refuted by room or user ids that
contain the `:` key separator: `join("a:b", "c")` and `join("a", "b:c")` share
the connection key `"a:b:c"`.  The invariant does hold for all operation
sequences whose room ids are colon-free. -/

/-- Invariant I1 exactly as the spec states it: a connection key
`room_id:user_id` is in `active_connections` iff `user_id` is in
`room_users[room_id]`. -/
def MembershipConsistent (m : ConnectionManager) : Prop :=
  ∀ room_id user_id : String,
    (dictLookup m.active_connections (connKey room_id user_id)).isSome = true ↔
      ∃ s, dictLookup m.room_users room_id = some s ∧ user_id ∈ s

/-- Invariant I1 restricted to colon-free room ids. -/
def ConsistentCF (m : ConnectionManager) : Prop :=
  ∀ room_id user_id : String, NoColon room_id →
    ((dictLookup m.active_connections (connKey room_id user_id)).isSome = true ↔
      ∃ s, dictLookup m.room_users room_id = some s ∧ user_id ∈ s)

/-- The operation's room id is colon-free. -/
def OpRoomNoColon : Op → Prop
  | Op.join r _ _ => NoColon r
  | Op.leave r _ => NoColon r

instance : DecidablePred OpRoomNoColon := fun op =>
  match op with
  | Op.join r _ _ => inferInstanceAs (Decidable (NoColon r))
  | Op.leave r _ => inferInstanceAs (Decidable (NoColon r))

theorem consistentCF_empty : ConsistentCF emptyManager := by
  intro r u _
  simp [emptyManager, dictLookup]

theorem consistentCF_connect {m : ConnectionManager} (hc : ConsistentCF m)
    (fails : Nat → Bool) {room_id : String} (user_id : String) (websocket : Nat)
    (hroom : NoColon room_id) :
    ConsistentCF (connect fails m room_id user_id websocket).1 := by
  intro r u hr
  by_cases hpair : r = room_id ∧ u = user_id
  · obtain ⟨rfl, rfl⟩ := hpair
    rw [connect_active, dictLookup_dictInsert_self, connect_rooms_lookup_self]
    simp only [Option.isSome_some, true_iff]
    exact ⟨_, rfl, by simp⟩
  · have hkey : connKey r u ≠ connKey room_id user_id := by
      intro hk
      exact hpair (connKey_inj_left hr hroom hk)
    rw [connect_active, dictLookup_dictInsert_ne _ _ hkey]
    by_cases hq : r = room_id
    · subst hq
      have hu : u ≠ user_id := fun h => hpair ⟨rfl, h⟩
      rw [connect_rooms_lookup_self]
      cases hl : dictLookup m.room_users r with
      | none =>
        have hbefore := hc r u hr
        rw [hl] at hbefore
        simp only [hl, Option.getD_none] at hbefore ⊢
        constructor
        · intro h
          exact absurd (hbefore.mp h) (by simp)
        · rintro ⟨s, hs1, hs2⟩
          obtain rfl := Option.some.inj hs1
          rcases mem_setAdd.mp hs2 with h | h
          · exact absurd h hu
          · exact absurd h (List.not_mem_nil u)
      | some s0 =>
        have hbefore := hc r u hr
        rw [hl] at hbefore
        simp only [hl, Option.getD_some]
        constructor
        · intro h
          obtain ⟨s1, hs1, hs2⟩ := hbefore.mp h
          obtain rfl := Option.some.inj hs1
          exact ⟨_, rfl, mem_setAdd.mpr (Or.inr hs2)⟩
        · rintro ⟨s1, hs1, hs2⟩
          obtain rfl := Option.some.inj hs1
          rcases mem_setAdd.mp hs2 with h | h
          · exact absurd h hu
          · exact hbefore.mpr ⟨s0, rfl, h⟩
    · rw [connect_rooms_lookup_ne _ _ _ _ hq]
      exact hc r u hr

theorem consistentCF_disconnect {m : ConnectionManager} (hm : WF m)
    (hc : ConsistentCF m) {room_id : String} (user_id : String)
    (hroom : NoColon room_id) :
    ConsistentCF (disconnect m room_id user_id) := by
  obtain ⟨ha, hrk, hs⟩ := hm
  intro r u hr
  by_cases hpair : r = room_id ∧ u = user_id
  · obtain ⟨rfl, rfl⟩ := hpair
    rw [disconnect_active_lookup_self ha]
    simp only [Option.isSome_none, Bool.false_eq_true, false_iff]
    rintro ⟨s1, hs1, hs2⟩
    cases hl : dictLookup m.room_users r with
    | none =>
      rw [disconnect_rooms_of_none u hl, hl] at hs1
      exact absurd hs1 (by simp)
    | some s0 =>
      rw [disconnect_rooms_of_some u hl] at hs1
      by_cases he : s0.erase u = []
      · rw [if_pos he, dictLookup_dictErase_self _ hrk] at hs1
        exact absurd hs1 (by simp)
      · rw [if_neg he, dictLookup_dictInsert_self] at hs1
        obtain rfl := Option.some.inj hs1
        exact absurd hs2 ((hs r s0 hl).1.not_mem_erase)
  · have hkey : connKey r u ≠ connKey room_id user_id := by
      intro hk
      exact hpair (connKey_inj_left hr hroom hk)
    rw [disconnect_active_lookup_ne _ hkey]
    by_cases hq : r = room_id
    · subst hq
      have hu : u ≠ user_id := fun h => hpair ⟨rfl, h⟩
      have hbefore := hc r u hr
      cases hl : dictLookup m.room_users r with
      | none =>
        rw [disconnect_rooms_of_none user_id hl]
        exact hbefore
      | some s0 =>
        rw [hl] at hbefore
        rw [disconnect_rooms_of_some user_id hl]
        by_cases he : s0.erase user_id = []
        · rw [if_pos he, dictLookup_dictErase_self _ hrk]
          have hnotin : u ∉ s0 := by
            intro hin
            have : u ∈ s0.erase user_id := (List.mem_erase_of_ne hu).mpr hin
            rw [he] at this
            exact List.not_mem_nil u this
          constructor
          · intro h
            obtain ⟨s1, hs1, hs2⟩ := hbefore.mp h
            obtain rfl := Option.some.inj hs1
            exact absurd hs2 hnotin
          · rintro ⟨s1, hs1, _⟩
            exact absurd hs1 (by simp)
        · rw [if_neg he, dictLookup_dictInsert_self]
          constructor
          · intro h
            obtain ⟨s1, hs1, hs2⟩ := hbefore.mp h
            obtain rfl := Option.some.inj hs1
            exact ⟨_, rfl, (List.mem_erase_of_ne hu).mpr hs2⟩
          · rintro ⟨s1, hs1, hs2⟩
            obtain rfl := Option.some.inj hs1
            exact hbefore.mpr ⟨s0, rfl, (List.mem_erase_of_ne hu).mp hs2⟩
    · rw [disconnect_rooms_lookup_ne _ _ hq]
      exact hc r u hr

theorem consistentCF_applyOp {m : ConnectionManager} (hm : WF m)
    (hc : ConsistentCF m) {op : Op} (hop : OpRoomNoColon op) :
    ConsistentCF (applyOp m op) := by
  cases op with
  | join r u w => exact consistentCF_connect hc _ u w hop
  | leave r u => exact consistentCF_disconnect hm hc u hop

theorem consistentCF_foldl {m : ConnectionManager} (hm : WF m)
    (hc : ConsistentCF m) (ops : List Op) (hops : ∀ op ∈ ops, OpRoomNoColon op) :
    ConsistentCF (ops.foldl applyOp m) := by
  induction ops generalizing m with
  | nil => exact hc
  | cons op t ih =>
    exact ih (WF_applyOp hm op)
      (consistentCF_applyOp hm hc (hops op (List.mem_cons_self op t)))
      (fun o ho => hops o (List.mem_cons_of_mem op ho))

/-- C1 counterexample: membership consistency as stated — for every sequence of
join/leave operations from the empty registry — fails, because ids containing
the `:` separator make distinct `(room_id, user_id)` pairs share one connection
key.  After `join("a:b","c")`, `join("a","b:c")` (which overwrites the shared
key `"a:b:c"`), and `leave("a:b","c")` (which deletes it), user `"b:c"` is
still a member of room `"a"` yet its connection key is absent. -/
theorem c1_membership_consistency_counterexample :
    ¬ ∀ ops : List Op, MembershipConsistent (runOps ops) := by
  intro h
  have h2 := (h [Op.join "a:b" "c" 1, Op.join "a" "b:c" 2, Op.leave "a:b" "c"]
      "a" "b:c").mpr ⟨["b:c"], by decide, by decide⟩
  exact absurd h2 (by decide)

/-- C1 (amended): for every sequence of join/leave operations from the empty
registry whose room ids contain no `:`, after each operation a connection key
`room_id:user_id` with colon-free `room_id` is present in `active_connections`
iff `user_id` is a member of `room_users[room_id]`. -/
theorem c1_membership_consistency (ops : List Op)
    (hops : ∀ op ∈ ops, OpRoomNoColon op)
    (room_id user_id : String) (hroom : NoColon room_id) :
    (dictLookup (runOps ops).active_connections (connKey room_id user_id)).isSome
        = true ↔
      ∃ s, dictLookup (runOps ops).room_users room_id = some s ∧ user_id ∈ s :=
  consistentCF_foldl WF_empty consistentCF_empty ops hops room_id user_id hroom

/-- C1 witness: a concrete colon-free run on which the amended consistency
theorem applies; both sides of the equivalence are true for `("r1", "A")`. -/
theorem c1_membership_consistency_witness :
    (∀ op ∈ [Op.join "r1" "A" 1, Op.join "r1" "B" 2], OpRoomNoColon op) ∧
      NoColon "r1" ∧
      ((dictLookup (runOps [Op.join "r1" "A" 1, Op.join "r1" "B" 2]).active_connections
          (connKey "r1" "A")).isSome = true ↔
        ∃ s, dictLookup (runOps [Op.join "r1" "A" 1, Op.join "r1" "B" 2]).room_users
            "r1" = some s ∧ "A" ∈ s) :=
  ⟨by decide, by decide,
    c1_membership_consistency [Op.join "r1" "A" 1, Op.join "r1" "B" 2]
      (by decide) "r1" "A" (by decide)⟩

/-! ## Broadcast fan-out lemmas -/

theorem fanSend_self (fails : Nat → Bool) (active : List (String × Nat))
    (room_id : String) (message : Msg) (u : String) :
    fanSend fails active room_id message (some u) u = [] := by
  simp [fanSend]

theorem mem_fanSend {fails : Nat → Bool} {active : List (String × Nat)}
    {room_id : String} {message : Msg} {exclude_user : Option String}
    {u : String} {d : Delivery} (hd : d ∈ fanSend fails active room_id message exclude_user u) :
    d.1 = connKey room_id u ∧ dictLookup active d.1 = some d.2.1 ∧
      d.2.2 = message ∧ some u ≠ exclude_user := by
  rw [fanSend] at hd
  by_cases hex : some u ≠ exclude_user
  · rw [if_pos hex] at hd
    cases hl : dictLookup active (connKey room_id u) with
    | none =>
      rw [hl] at hd
      exact absurd hd (List.not_mem_nil d)
    | some w =>
      rw [hl] at hd
      simp only [send_message] at hd
      cases hsj : sendJson fails w message with
      | error e => rw [hsj] at hd; exact absurd hd (List.not_mem_nil d)
      | ok p =>
        rw [hsj] at hd
        rw [sendJson] at hsj
        by_cases hf : fails w
        · rw [if_pos hf] at hsj; exact absurd hsj (by simp)
        · rw [if_neg hf] at hsj
          obtain rfl := Except.ok.inj hsj
          simp only [List.map_cons, List.map_nil, List.mem_singleton] at hd
          subst hd
          exact ⟨rfl, by simpa using hl, rfl, hex⟩
  · rw [if_neg hex] at hd
    exact absurd hd (List.not_mem_nil d)

theorem fanSend_of_live {fails : Nat → Bool} {active : List (String × Nat)}
    {room_id : String} {message : Msg} {exclude_user : Option String}
    {u : String} (hex : some u ≠ exclude_user) {w : Nat}
    (hw : dictLookup active (connKey room_id u) = some w) (hf : fails w = false) :
    fanSend fails active room_id message exclude_user u =
      [(connKey room_id u, w, message)] := by
  simp [fanSend, hex, hw, send_message, sendJson, hf]

theorem fanSend_of_dead {fails : Nat → Bool} {active : List (String × Nat)}
    {room_id : String} {message : Msg} {exclude_user : Option String}
    {u : String} {w : Nat}
    (hw : dictLookup active (connKey room_id u) = some w) (hf : fails w = true) :
    fanSend fails active room_id message exclude_user u = [] := by
  by_cases hex : some u ≠ exclude_user
  · simp [fanSend, hex, hw, send_message, sendJson, hf]
  · simp [fanSend, hex]

/-- Members other than `u` contribute no delivery keyed `connKey room_id u`. -/
theorem countP_fanout_zero (fails : Nat → Bool) (active : List (String × Nat))
    (room_id : String) (message : Msg) (exclude_user : Option String)
    {users : List String} {u : String} (hu : u ∉ users) :
    ((users.flatMap (fanSend fails active room_id message exclude_user)).countP
      (fun d => d.1 == connKey room_id u)) = 0 := by
  rw [List.countP_eq_zero]
  intro d hd
  obtain ⟨v, hv, hdv⟩ := List.mem_flatMap.mp hd
  obtain ⟨hk, _, _, _⟩ := mem_fanSend hdv
  have hvu : v ≠ u := fun h => hu (h ▸ hv)
  simp only [hk, beq_iff_eq]
  intro hkey
  exact hvu (connKey_inj_right hkey)

/-- In a duplicate-free member list, a non-excluded member with a live,
non-failing channel receives exactly one delivery keyed by its connection key. -/
theorem countP_fanout_one (fails : Nat → Bool) (active : List (String × Nat))
    (room_id : String) (message : Msg) (exclude_user : Option String)
    {users : List String} (hnd : users.Nodup) {u : String} (hu : u ∈ users)
    (hex : some u ≠ exclude_user) {w : Nat}
    (hw : dictLookup active (connKey room_id u) = some w) (hf : fails w = false) :
    ((users.flatMap (fanSend fails active room_id message exclude_user)).countP
      (fun d => d.1 == connKey room_id u)) = 1 := by
  induction users with
  | nil => exact absurd hu (List.not_mem_nil u)
  | cons v t ih =>
    rw [List.flatMap_cons, List.countP_append]
    rcases List.mem_cons.mp hu with rfl | hut
    · rw [fanSend_of_live hex hw hf]
      have ht : u ∉ t := (List.nodup_cons.mp hnd).1
      rw [countP_fanout_zero fails active room_id message exclude_user ht]
      simp [List.countP_cons]
    · have hvu : v ≠ u := by
        rintro rfl
        exact (List.nodup_cons.mp hnd).1 hut
      have hhead : ((fanSend fails active room_id message exclude_user v).countP
          (fun d => d.1 == connKey room_id u)) = 0 := by
        rw [List.countP_eq_zero]
        intro d hd
        obtain ⟨hk, _, _, _⟩ := mem_fanSend hd
        simp only [hk, beq_iff_eq]
        intro hkey
        exact hvu (connKey_inj_right hkey)
      rw [hhead, ih (List.nodup_cons.mp hnd).2 hut]

/-- Every delivery of a broadcast is keyed by a member of the room other than
the excluded user, carries the broadcast payload, and its socket is exactly the
`active_connections` entry for its key. -/
theorem mem_broadcast {fails : Nat → Bool} {m : ConnectionManager}
    {room_id : String} {message : Msg} {exclude_user : Option String} {d : Delivery}
    (hd : d ∈ broadcast_to_room fails m room_id message exclude_user) :
    ∃ u, u ∈ (dictLookup m.room_users room_id).getD [] ∧ some u ≠ exclude_user ∧
      d.1 = connKey room_id u ∧ dictLookup m.active_connections d.1 = some d.2.1 ∧
      d.2.2 = message := by
  rw [broadcast_to_room] at hd
  cases hl : dictLookup m.room_users room_id with
  | none =>
    rw [hl] at hd
    exact absurd hd (List.not_mem_nil d)
  | some users =>
    rw [hl] at hd
    obtain ⟨u, hu, hdu⟩ := List.mem_flatMap.mp hd
    obtain ⟨hk, hlk, hmsg, hex⟩ := mem_fanSend hdu
    exact ⟨u, by simpa [hl] using hu, hex, hk, hlk, hmsg⟩

/-- A broadcast excluding `U` produces no delivery keyed by `U`'s connection key. -/
theorem broadcast_not_to_excluded {fails : Nat → Bool} {m : ConnectionManager}
    {room_id : String} {message : Msg} {U : String} {d : Delivery}
    (hd : d ∈ broadcast_to_room fails m room_id message (some U)) :
    d.1 ≠ connKey room_id U := by
  obtain ⟨u, _, hex, hk, _, _⟩ := mem_broadcast hd
  rw [hk]
  intro hkey
  exact hex (by rw [connKey_inj_right hkey])

/-- C2 counterexample: exclusion correctness as stated — delivery to every other
current member — fails on a reachable registry state.  After
`join("a:b","c")`, `join("a:b","d")`, `join("a","b:c")` (overwriting the shared
key `"a:b:c"`) and `leave("a","b:c")` (deleting it), room `"a:b"` still has
members `"c"` and `"d"`, but member `"c"` has no connection entry, so a
broadcast to room `"a:b"` excluding `"d"` delivers nothing at all to `"c"`. -/
theorem c2_exclusion_correctness_counterexample :
    dictLookup (runOps [Op.join "a:b" "c" 1, Op.join "a:b" "d" 2,
        Op.join "a" "b:c" 3, Op.leave "a" "b:c"]).room_users "a:b" =
      some ["d", "c"] ∧
    ("c" ∈ (["d", "c"] : List String) ∧ ("c" : String) ≠ "d") ∧
    ((broadcast_to_room (fun _ => false)
        (runOps [Op.join "a:b" "c" 1, Op.join "a:b" "d" 2,
          Op.join "a" "b:c" 3, Op.leave "a" "b:c"])
        "a:b" (Msg.offer "d" "x") (some "d")).countP
      (fun d => d.1 == connKey "a:b" "c")) = 0 := by
  decide

/-- C2 (amended): for every registry state whose room member set is a genuine
set (duplicate-free), a broadcast to the room excluding `U` never produces a
delivery keyed by `U`'s connection key, and delivers exactly once to every
other member whose connection key is present in the connection map (which is
every other member, in states satisfying invariant I1), with no transport
failures. -/
theorem c2_exclusion_correctness (m : ConnectionManager) (room_id : String)
    (message : Msg) (U : String) {s : List String}
    (hs : dictLookup m.room_users room_id = some s) (hnd : s.Nodup) :
    (∀ d ∈ broadcast_to_room (fun _ => false) m room_id message (some U),
      d.1 ≠ connKey room_id U) ∧
    ∀ u ∈ s, u ≠ U →
      ∀ w, dictLookup m.active_connections (connKey room_id u) = some w →
        ((broadcast_to_room (fun _ => false) m room_id message (some U)).countP
          (fun d => d.1 == connKey room_id u)) = 1 := by
  constructor
  · exact fun d hd => broadcast_not_to_excluded hd
  · intro u hu huU w hw
    rw [broadcast_to_room, hs]
    exact countP_fanout_one _ _ _ _ _ hnd hu (by simpa using huU) hw rfl

/-- C2 witness: in the registry reached by `A` and `B` joining room `r1`, a
broadcast excluding `A` delivers exactly once to `B`. -/
theorem c2_exclusion_correctness_witness :
    dictLookup (runOps [Op.join "r1" "A" 1, Op.join "r1" "B" 2]).room_users "r1" =
        some ["B", "A"] ∧
    (["B", "A"] : List String).Nodup ∧
    ((broadcast_to_room (fun _ => false)
        (runOps [Op.join "r1" "A" 1, Op.join "r1" "B" 2])
        "r1" (Msg.offer "A" "x") (some "A")).countP
      (fun d => d.1 == connKey "r1" "B")) = 1 :=
  ⟨by decide, by decide,
    (@c2_exclusion_correctness (runOps [Op.join "r1" "A" 1, Op.join "r1" "B" 2])
        "r1" (Msg.offer "A" "x") "A" ["B", "A"] (by decide) (by decide)).2
      "B" (by decide) (by decide) 2 (by decide)⟩

/-! ## Idempotent leave -/

/-- C3: on every well-formed registry state (`WF` is exactly the Python
dict/set state space plus the maintained no-empty-room invariant),
`disconnect` is idempotent, and `disconnect` of a pair that is not registered
— its key absent from the connection map and its user absent from the room's
set — leaves the state unchanged.  `disconnect` contains no send call, so no
notification is emitted on any of these paths. -/
theorem c3_idempotent_leave (m : ConnectionManager) (hm : WF m)
    (room_id user_id : String) :
    disconnect (disconnect m room_id user_id) room_id user_id =
        disconnect m room_id user_id ∧
    ((dictLookup m.active_connections (connKey room_id user_id)).isSome = false →
      (∀ s, dictLookup m.room_users room_id = some s → user_id ∉ s) →
      disconnect m room_id user_id = m) := by
  obtain ⟨ha, hrk, hsets⟩ := hm
  constructor
  · have hact : (disconnect (disconnect m room_id user_id) room_id user_id).active_connections
        = (disconnect m room_id user_id).active_connections := by
      rw [disconnect_active (disconnect m room_id user_id),
        disconnect_active_lookup_self ha]
      simp
    have hroo : (disconnect (disconnect m room_id user_id) room_id user_id).room_users
        = (disconnect m room_id user_id).room_users := by
      cases hl : dictLookup m.room_users room_id with
      | none =>
        have h1 : (disconnect m room_id user_id).room_users = m.room_users :=
          disconnect_rooms_of_none user_id hl
        rw [disconnect_rooms_of_none user_id (by rw [h1]; exact hl)]
      | some s =>
        by_cases he : s.erase user_id = []
        · have h1 : (disconnect m room_id user_id).room_users =
              dictErase m.room_users room_id := by
            rw [disconnect_rooms_of_some user_id hl, if_pos he]
          rw [disconnect_rooms_of_none user_id
            (by rw [h1]; exact dictLookup_dictErase_self _ hrk)]
        · have h1 : (disconnect m room_id user_id).room_users =
              dictInsert m.room_users room_id (s.erase user_id) := by
            rw [disconnect_rooms_of_some user_id hl, if_neg he]
          have h2 : dictLookup (disconnect m room_id user_id).room_users room_id =
              some (s.erase user_id) := by
            rw [h1]
            exact dictLookup_dictInsert_self _ _ _
          rw [disconnect_rooms_of_some user_id h2]
          have hnotin : user_id ∉ s.erase user_id := (hsets _ _ hl).1.not_mem_erase
          rw [List.erase_of_not_mem hnotin, if_neg he, h1]
          exact dictInsert_self (dictLookup_dictInsert_self _ _ _)
    calc disconnect (disconnect m room_id user_id) room_id user_id
        = ⟨(disconnect (disconnect m room_id user_id) room_id user_id).active_connections,
            (disconnect (disconnect m room_id user_id) room_id user_id).room_users⟩ := rfl
      _ = (disconnect m room_id user_id) := by rw [hact, hroo]
  · intro hkey hmem
    have hact : (disconnect m room_id user_id).active_connections =
        m.active_connections := by
      rw [disconnect_active, hkey]
      simp
    have hroo : (disconnect m room_id user_id).room_users = m.room_users := by
      cases hl : dictLookup m.room_users room_id with
      | none => exact disconnect_rooms_of_none user_id hl
      | some s =>
        have hne : s.erase user_id = s := List.erase_of_not_mem (hmem s hl)
        rw [disconnect_rooms_of_some user_id hl, hne, if_neg (hsets _ _ hl).2]
        exact dictInsert_self hl
    calc disconnect m room_id user_id
        = ⟨(disconnect m room_id user_id).active_connections,
            (disconnect m room_id user_id).room_users⟩ := rfl
      _ = m := by rw [hact, hroo]

/-- C3 witness: in the registry reached by `A` joining room `r1`, leaving twice
equals leaving once, and leaving a never-joined pair is a no-op. -/
theorem c3_idempotent_leave_witness :
    WF (runOps [Op.join "r1" "A" 1]) ∧
    (disconnect (disconnect (runOps [Op.join "r1" "A" 1]) "r1" "A") "r1" "A" =
        disconnect (runOps [Op.join "r1" "A" 1]) "r1" "A" ∧
      ((dictLookup (runOps [Op.join "r1" "A" 1]).active_connections
          (connKey "r1" "A")).isSome = false →
        (∀ s, dictLookup (runOps [Op.join "r1" "A" 1]).room_users "r1" = some s →
          "A" ∉ s) →
        disconnect (runOps [Op.join "r1" "A" 1]) "r1" "A" = runOps [Op.join "r1" "A" 1])) :=
  ⟨WF_runOps [Op.join "r1" "A" 1],
    c3_idempotent_leave (runOps [Op.join "r1" "A" 1])
      (WF_runOps [Op.join "r1" "A" 1]) "r1" "A"⟩

/-! ## Empty-room pruning -/

/-- A registry state reachable by some sequence of join/leave operations from
the empty registry. -/
def Reachable (m : ConnectionManager) : Prop :=
  ∃ ops : List Op, runOps ops = m

/-- C4: in every reachable registry state no room maps to an empty member set,
and when `disconnect` removes the last member of a room, the room id is absent
from the room map afterwards. -/
theorem c4_empty_room_pruning (m : ConnectionManager) (hm : Reachable m) :
    (∀ r s, dictLookup m.room_users r = some s → s ≠ []) ∧
    ∀ room_id user_id, dictLookup m.room_users room_id = some [user_id] →
      dictLookup (disconnect m room_id user_id).room_users room_id = none := by
  obtain ⟨ops, rfl⟩ := hm
  obtain ⟨ha, hrk, hsets⟩ := WF_runOps ops
  refine ⟨fun r s h => (hsets r s h).2, fun room_id user_id h => ?_⟩
  have he : ([user_id] : List String).erase user_id = [] := by simp
  rw [disconnect_rooms_of_some user_id h, if_pos he]
  exact dictLookup_dictErase_self _ hrk

/-- C4 witness: after `A` joins room `r1` and then leaves, room `r1` is gone
from the room map. -/
theorem c4_empty_room_pruning_witness :
    Reachable (runOps [Op.join "r1" "A" 1]) ∧
    dictLookup (disconnect (runOps [Op.join "r1" "A" 1]) "r1" "A").room_users
      "r1" = none :=
  ⟨⟨[Op.join "r1" "A" 1], rfl⟩,
    (c4_empty_room_pruning (runOps [Op.join "r1" "A" 1])
      ⟨[Op.join "r1" "A" 1], rfl⟩).2 "r1" "A" (by decide)⟩

/-! ## Reconnect overwrite -/

/-- C5: joining with a `(room_id, user_id)` that is already registered (its key
holds channel `c1` and the user is in the room's member set) replaces the
channel handle: afterwards the connection map holds `c2` for that key, the room
map is entirely unchanged (in particular `user_id` still appears exactly as
before, once), and any delivery of any subsequent broadcast keyed by that
connection key is sent on `c2` — never on the superseded `c1` when the two
differ. -/
theorem c5_reconnect_overwrite (fails : Nat → Bool) (m : ConnectionManager)
    (room_id user_id : String) (c1 c2 : Nat)
    (_hc1 : dictLookup m.active_connections (connKey room_id user_id) = some c1)
    {s : List String} (hs : dictLookup m.room_users room_id = some s)
    (hu : user_id ∈ s) :
    dictLookup (connect fails m room_id user_id c2).1.active_connections
        (connKey room_id user_id) = some c2 ∧
    (connect fails m room_id user_id c2).1.room_users = m.room_users ∧
    ∀ (fails2 : Nat → Bool) (room2 : String) (message : Msg)
      (exclude : Option String) (d : Delivery),
      d ∈ broadcast_to_room fails2 (connect fails m room_id user_id c2).1
          room2 message exclude →
      d.1 = connKey room_id user_id → d.2.1 = c2 := by
  have hact : dictLookup (connect fails m room_id user_id c2).1.active_connections
      (connKey room_id user_id) = some c2 := by
    rw [connect_active]
    exact dictLookup_dictInsert_self _ _ _
  refine ⟨hact, ?_, ?_⟩
  · show dictInsert _ room_id _ = m.room_users
    rw [hs]
    simp only [Option.isNone_some, Bool.false_eq_true, if_false, hs, Option.getD_some,
      setAdd, if_pos hu]
    exact dictInsert_self hs
  · intro fails2 room2 message exclude d hd hk
    obtain ⟨v, _, _, _, hlk, _⟩ := mem_broadcast hd
    rw [hk, hact] at hlk
    exact (Option.some.inj hlk).symm

/-- C5 witness: after `A` joins `r1` on channel 1 and rejoins on channel 5, the
key `r1:A` holds channel 5 and the room map is unchanged. -/
theorem c5_reconnect_overwrite_witness :
    dictLookup (runOps [Op.join "r1" "A" 1]).active_connections
        (connKey "r1" "A") = some 1 ∧
    (dictLookup (connect (fun _ => false) (runOps [Op.join "r1" "A" 1])
          "r1" "A" 5).1.active_connections (connKey "r1" "A") = some 5 ∧
      (connect (fun _ => false) (runOps [Op.join "r1" "A" 1])
          "r1" "A" 5).1.room_users = (runOps [Op.join "r1" "A" 1]).room_users ∧
      ∀ (fails2 : Nat → Bool) (room2 : String) (message : Msg)
        (exclude : Option String) (d : Delivery),
        d ∈ broadcast_to_room fails2
            (connect (fun _ => false) (runOps [Op.join "r1" "A" 1]) "r1" "A" 5).1
            room2 message exclude →
        d.1 = connKey "r1" "A" → d.2.1 = 5) :=
  ⟨by decide,
    @c5_reconnect_overwrite (fun _ => false) (runOps [Op.join "r1" "A" 1])
      "r1" "A" 1 5 (by decide) ["A"] (by decide) (by decide)⟩

/-! ## Registration before notification -/

/-- C6: `connect` registers the new connection in both structures before any
peer-joined notification is attempted: in the post-registration state returned
by `connect` — the very state from which the notification loop reads both maps,
as in the source, where both mutations precede the loop — the new key already
holds the new channel and the new user is already in the room's member set; and
every notification delivery goes to a peer other than the joining user whose
channel is resolved from that post-registration connection map and who shares
the room's member set with the already-visible new member. -/
theorem c6_registration_before_notification (fails : Nat → Bool)
    (m : ConnectionManager) (room_id user_id : String) (websocket : Nat) :
    dictLookup (connect fails m room_id user_id websocket).1.active_connections
        (connKey room_id user_id) = some websocket ∧
    (∃ s, dictLookup (connect fails m room_id user_id websocket).1.room_users
        room_id = some s ∧ user_id ∈ s) ∧
    ∀ d ∈ (connect fails m room_id user_id websocket).2,
      ∃ uid, uid ≠ user_id ∧ d.1 = connKey room_id uid ∧
        d.2.2 = Msg.peerJoined user_id ∧
        dictLookup (connect fails m room_id user_id websocket).1.active_connections
          d.1 = some d.2.1 ∧
        ∃ s, dictLookup (connect fails m room_id user_id websocket).1.room_users
            room_id = some s ∧ uid ∈ s ∧ user_id ∈ s := by
  have hact : dictLookup (connect fails m room_id user_id websocket).1.active_connections
      (connKey room_id user_id) = some websocket := by
    rw [connect_active]
    exact dictLookup_dictInsert_self _ _ _
  have hroom := connect_rooms_lookup_self fails m room_id user_id websocket
  have hsnd : (connect fails m room_id user_id websocket).2 =
      (setAdd ((dictLookup m.room_users room_id).getD []) user_id).flatMap
        (fanSend fails
          (dictInsert m.active_connections (connKey room_id user_id) websocket)
          room_id (Msg.peerJoined user_id) (some user_id)) := by
    simp only [connect]
    cases hl : dictLookup m.room_users room_id with
    | none => simp [hl, dictLookup_dictInsert_self]
    | some s => simp [hl]
  refine ⟨hact, ⟨_, hroom, by simp⟩, ?_⟩
  intro d hd
  rw [hsnd] at hd
  obtain ⟨uid, huid, hdu⟩ := List.mem_flatMap.mp hd
  obtain ⟨hk, hlk, hmsg, hex⟩ := mem_fanSend hdu
  refine ⟨uid, by simpa using hex, hk, hmsg, hlk, _, hroom, huid, by simp⟩

/-! ## Unicast fault isolation -/

/-- C7: `send_message` swallows a transport failure — on a dead channel it
returns normally with no delivery instead of propagating an exception — and
consequently a broadcast over a room containing the dead channel `deadWs`
still delivers exactly once to every other non-excluded member whose channel
is live. -/
theorem c7_unicast_fault_isolation (m : ConnectionManager) (room_id : String)
    (message : Msg) (exclude : Option String) (deadWs : Nat) {s : List String}
    (hs : dictLookup m.room_users room_id = some s) (hnd : s.Nodup) :
    (∀ msg2 : Msg, send_message (fun w => w == deadWs) deadWs msg2 = []) ∧
    ∀ u ∈ s, some u ≠ exclude →
      ∀ w, dictLookup m.active_connections (connKey room_id u) = some w →
        w ≠ deadWs →
        ((broadcast_to_room (fun w => w == deadWs) m room_id message exclude).countP
          (fun d => d.1 == connKey room_id u)) = 1 := by
  constructor
  · intro msg2
    simp [send_message, sendJson]
  · intro u hu hex w hw hwd
    rw [broadcast_to_room, hs]
    exact countP_fanout_one _ _ _ _ _ hnd hu hex hw (by simpa using hwd)

/-- C7 witness: `A`, `B`, `C` join room `r1` on channels 1, 2, 3; with channel 3
dead, a broadcast excluding `A` still delivers exactly once to `B`. -/
theorem c7_unicast_fault_isolation_witness :
    dictLookup (runOps [Op.join "r1" "A" 1, Op.join "r1" "B" 2,
        Op.join "r1" "C" 3]).room_users "r1" = some ["C", "B", "A"] ∧
    (["C", "B", "A"] : List String).Nodup ∧
    ((broadcast_to_room (fun w => w == 3)
        (runOps [Op.join "r1" "A" 1, Op.join "r1" "B" 2, Op.join "r1" "C" 3])
        "r1" (Msg.offer "A" "x") (some "A")).countP
      (fun d => d.1 == connKey "r1" "B")) = 1 :=
  ⟨by decide, by decide,
    (@c7_unicast_fault_isolation
        (runOps [Op.join "r1" "A" 1, Op.join "r1" "B" 2, Op.join "r1" "C" 3])
        "r1" (Msg.offer "A" "x") (some "A") 3 ["C", "B", "A"]
        (by decide) (by decide)).2
      "B" (by decide) (by decide) 2 (by decide) (by decide)⟩

/-! ## The session handler (`websocket_endpoint`) -/

/-- An inbound JSON object: each field may be absent, and accessing an absent
field (`data["type"]`, `data["sdp"]`, `data["candidate"]`) raises `KeyError`. -/
structure InMsg where
  type : Option String
  sdp : Option String
  candidate : Option String
  deriving DecidableEq

/-- Outcome of one `websocket.receive_json()` call in the session loop. -/
inductive Inbound where
  /-- a message was received and parsed -/
  | msg (data : InMsg)
  /-- receive raised `WebSocketDisconnect` -/
  | closed
  /-- receive raised any other exception (e.g. an unparseable frame) -/
  | failure
  deriving DecidableEq

/-- Body of the `while True` loop for one received message, mirroring the
source line by line: the log line reads `data["type"]` (raising on a missing
type field), then the if/elif chain dispatches on the type — `offer`, `answer`
and `ice-candidate` read their payload field and broadcast it excluding the
sender, `ping` answers `pong` on the session's own socket with a bare
`send_json` (whose failure propagates), and any other type falls through the
chain doing nothing.  An `Except.error` is an exception escaping the loop
body. -/
def handleData (fails : Nat → Bool) (m : ConnectionManager)
    (room_id user_id : String) (websocket : Nat) (data : InMsg) :
    Except String (List Delivery) :=
  match data.type with
  | none => Except.error "KeyError: type"
  | some t =>
    if t = "offer" then
      match data.sdp with
      | none => Except.error "KeyError: sdp"
      | some sdp =>
        Except.ok (broadcast_to_room fails m room_id
          (Msg.offer user_id sdp) (some user_id))
    else if t = "answer" then
      match data.sdp with
      | none => Except.error "KeyError: sdp"
      | some sdp =>
        Except.ok (broadcast_to_room fails m room_id
          (Msg.answer user_id sdp) (some user_id))
    else if t = "ice-candidate" then
      match data.candidate with
      | none => Except.error "KeyError: candidate"
      | some c =>
        Except.ok (broadcast_to_room fails m room_id
          (Msg.iceCandidate user_id c) (some user_id))
    else if t = "ping" then
      match sendJson fails websocket Msg.pong with
      | Except.ok d => Except.ok [(connKey room_id user_id, d)]
      | Except.error e => Except.error e
    else
      Except.ok []

/-- Result of running a session: final registry state, the deliveries made, how
many times `manager.disconnect` was invoked, and whether the handler
terminated (`False` means it is still blocked in `receive_json`). -/
structure SessionResult where
  state : ConnectionManager
  sends : List Delivery
  disconnectCalls : Nat
  terminated : Bool
  deriving DecidableEq

/-- The `try/while/except` part of `websocket_endpoint`: process inbound events
until an exception ends the loop.  `WebSocketDisconnect` and any other
exception — whether raised by `receive_json` or escaping the loop body — are
each caught by the corresponding `except` clause, which calls
`manager.disconnect` once and ends the handler.  The loop body never mutates
the registry, so the state is threaded unchanged. -/
def runLoop (fails : Nat → Bool) (m : ConnectionManager) (room_id user_id : String)
    (websocket : Nat) : List Inbound → SessionResult
  | [] => ⟨m, [], 0, false⟩
  | Inbound.closed :: _ => ⟨disconnect m room_id user_id, [], 1, true⟩
  | Inbound.failure :: _ => ⟨disconnect m room_id user_id, [], 1, true⟩
  | Inbound.msg data :: rest =>
    match handleData fails m room_id user_id websocket data with
    | Except.error _ => ⟨disconnect m room_id user_id, [], 1, true⟩
    | Except.ok out =>
      let r := runLoop fails m room_id user_id websocket rest
      ⟨r.state, out ++ r.sends, r.disconnectCalls, r.terminated⟩

/-- `websocket_endpoint`: `manager.connect` (accept, register, notify peers),
then the receive loop. -/
def websocket_endpoint (fails : Nat → Bool) (m : ConnectionManager)
    (websocket : Nat) (room_id user_id : String) (events : List Inbound) :
    SessionResult :=
  let c := connect fails m room_id user_id websocket
  let r := runLoop fails c.1 room_id user_id websocket events
  ⟨r.state, c.2 ++ r.sends, r.disconnectCalls, r.terminated⟩

/-- C8: a message whose `type` field is present but is none of `offer`,
`answer`, `ice-candidate`, `ping` is ignored: the session continues exactly as
if the message had not been received — same final state, no delivery, no
registry operation, no termination. -/
theorem c8_unrecognized_type_tolerance (fails : Nat → Bool)
    (m : ConnectionManager) (room_id user_id : String) (websocket : Nat)
    (data : InMsg) (t : String) (ht : data.type = some t)
    (hnot : t ≠ "offer" ∧ t ≠ "answer" ∧ t ≠ "ice-candidate" ∧ t ≠ "ping")
    (rest : List Inbound) :
    runLoop fails m room_id user_id websocket (Inbound.msg data :: rest) =
      runLoop fails m room_id user_id websocket rest := by
  obtain ⟨h1, h2, h3, h4⟩ := hnot
  have hh : handleData fails m room_id user_id websocket data = Except.ok [] := by
    rw [handleData]
    rw [ht]
    simp [h1, h2, h3, h4]
  rw [runLoop, hh]
  simp

/-- C8 witness: a `{"type": "hello"}` message before an empty tail leaves the
loop exactly where an empty tail alone would. -/
theorem c8_unrecognized_type_tolerance_witness :
    (⟨some "hello", none, none⟩ : InMsg).type = some "hello" ∧
    runLoop (fun _ => false) emptyManager "r1" "A" 1
        [Inbound.msg ⟨some "hello", none, none⟩] =
      runLoop (fun _ => false) emptyManager "r1" "A" 1 [] :=
  ⟨rfl, c8_unrecognized_type_tolerance (fun _ => false) emptyManager "r1" "A" 1
    ⟨some "hello", none, none⟩ "hello" rfl
    (by refine ⟨?_, ?_, ?_, ?_⟩ <;> decide) []⟩

/-- Exactly-once bookkeeping of the receive loop: a terminated run called
`disconnect` exactly once; a still-open run has not called it. -/
theorem runLoop_disconnectCalls (fails : Nat → Bool) (m : ConnectionManager)
    (room_id user_id : String) (websocket : Nat) (events : List Inbound) :
    ((runLoop fails m room_id user_id websocket events).terminated = true →
      (runLoop fails m room_id user_id websocket events).disconnectCalls = 1) ∧
    ((runLoop fails m room_id user_id websocket events).terminated = false →
      (runLoop fails m room_id user_id websocket events).disconnectCalls = 0) := by
  induction events with
  | nil => exact ⟨fun h => by simp [runLoop] at h, fun _ => rfl⟩
  | cons e rest ih =>
    cases e with
    | closed => exact ⟨fun _ => rfl, fun h => by simp [runLoop] at h⟩
    | failure => exact ⟨fun _ => rfl, fun h => by simp [runLoop] at h⟩
    | msg data =>
      cases hh : handleData fails m room_id user_id websocket data with
      | error e2 =>
        rw [runLoop, hh]
        exact ⟨fun _ => rfl, fun h => by simp at h⟩
      | ok out =>
        rw [runLoop, hh]
        exact ih

/-- C9: every terminating session-handler execution — transport disconnect, a
malformed or unparseable message, or any other failure after join succeeded —
invokes `disconnect` for its `(room_id, user_id)` exactly once before the
handler ends. -/
theorem c9_exactly_once_cleanup (fails : Nat → Bool) (m : ConnectionManager)
    (websocket : Nat) (room_id user_id : String) (events : List Inbound)
    (hterm : (websocket_endpoint fails m websocket room_id user_id
      events).terminated = true) :
    (websocket_endpoint fails m websocket room_id user_id
      events).disconnectCalls = 1 :=
  (runLoop_disconnectCalls fails (connect fails m room_id user_id websocket).1
    room_id user_id websocket events).1 hterm

/-- C9 witness: a session that joins and then sees the transport close
terminates having called `disconnect` exactly once. -/
theorem c9_exactly_once_cleanup_witness :
    (websocket_endpoint (fun _ => false) emptyManager 1 "r1" "A"
        [Inbound.closed]).terminated = true ∧
    (websocket_endpoint (fun _ => false) emptyManager 1 "r1" "A"
        [Inbound.closed]).disconnectCalls = 1 :=
  ⟨rfl, c9_exactly_once_cleanup (fun _ => false) emptyManager 1 "r1" "A"
    [Inbound.closed] rfl⟩

/-! ## Stale cleanup erases a replacement connection -/

/-- C10: `disconnect` is keyed only by `(room_id, user_id)`, so after
`join(r,u,c1)` followed by `join(r,u,c2)`, a single `leave(r,u)` — e.g. the
cleanup run on behalf of the superseded connection `c1` — removes the live
replacement `c2` entirely: the connection key is gone, `u` is no longer a
member of the room, and no subsequent broadcast in the room produces a
delivery keyed by `u`'s connection key, on either channel. -/
theorem c10_stale_cleanup_erases_replacement (fails1 fails2 : Nat → Bool)
    (m : ConnectionManager) (hm : WF m) (room_id user_id : String) (c1 c2 : Nat) :
    dictLookup (disconnect (connect fails2
        (connect fails1 m room_id user_id c1).1 room_id user_id c2).1
        room_id user_id).active_connections (connKey room_id user_id) = none ∧
    (∀ s, dictLookup (disconnect (connect fails2
        (connect fails1 m room_id user_id c1).1 room_id user_id c2).1
        room_id user_id).room_users room_id = some s → user_id ∉ s) ∧
    ∀ (fails3 : Nat → Bool) (message : Msg) (exclude : Option String)
      (d : Delivery),
      d ∈ broadcast_to_room fails3 (disconnect (connect fails2
          (connect fails1 m room_id user_id c1).1 room_id user_id c2).1
          room_id user_id) room_id message exclude →
      d.1 ≠ connKey room_id user_id := by
  obtain ⟨ha2, hr2, hs2⟩ :=
    WF_connect (WF_connect hm fails1 room_id user_id c1) fails2 room_id user_id c2
  have hl2 : dictLookup (connect fails2 (connect fails1 m room_id user_id c1).1
      room_id user_id c2).1.room_users room_id =
      some (setAdd ((dictLookup m.room_users room_id).getD []) user_id) := by
    rw [connect_rooms_lookup_self, connect_rooms_lookup_self, Option.getD_some,
      setAdd_setAdd]
  have hnd2 : (setAdd ((dictLookup m.room_users room_id).getD []) user_id).Nodup :=
    (hs2 _ _ hl2).1
  have hroom3 : ∀ s, dictLookup (disconnect (connect fails2
      (connect fails1 m room_id user_id c1).1 room_id user_id c2).1
      room_id user_id).room_users room_id = some s → user_id ∉ s := by
    intro s h
    rw [disconnect_rooms_of_some user_id hl2] at h
    by_cases he : (setAdd ((dictLookup m.room_users room_id).getD [])
        user_id).erase user_id = []
    · rw [if_pos he, dictLookup_dictErase_self _ hr2] at h
      exact absurd h (by simp)
    · rw [if_neg he, dictLookup_dictInsert_self] at h
      obtain rfl := Option.some.inj h
      exact hnd2.not_mem_erase
  refine ⟨disconnect_active_lookup_self ha2 room_id user_id, hroom3, ?_⟩
  intro fails3 message exclude d hd hk
  obtain ⟨v, hv, _, hkv, _, _⟩ := mem_broadcast hd
  rw [hk] at hkv
  have hvu : v = user_id := connKey_inj_right hkv.symm
  cases hl3 : dictLookup (disconnect (connect fails2
      (connect fails1 m room_id user_id c1).1 room_id user_id c2).1
      room_id user_id).room_users room_id with
  | none =>
    rw [hl3] at hv
    exact absurd hv (List.not_mem_nil v)
  | some s3 =>
    rw [hl3] at hv
    exact hroom3 s3 hl3 (hvu ▸ hv)

/-- C10 witness: from the empty registry, `join(r1,A,1)`, `join(r1,A,2)`, then
one `leave(r1,A)` leaves `A` fully unregistered. -/
theorem c10_stale_cleanup_erases_replacement_witness :
    WF emptyManager ∧
    (dictLookup (disconnect (connect (fun _ => false)
        (connect (fun _ => false) emptyManager "r1" "A" 1).1 "r1" "A" 2).1
        "r1" "A").active_connections (connKey "r1" "A") = none ∧
    (∀ s, dictLookup (disconnect (connect (fun _ => false)
        (connect (fun _ => false) emptyManager "r1" "A" 1).1 "r1" "A" 2).1
        "r1" "A").room_users "r1" = some s → "A" ∉ s) ∧
    ∀ (fails3 : Nat → Bool) (message : Msg) (exclude : Option String)
      (d : Delivery),
      d ∈ broadcast_to_room fails3 (disconnect (connect (fun _ => false)
          (connect (fun _ => false) emptyManager "r1" "A" 1).1 "r1" "A" 2).1
          "r1" "A") "r1" message exclude →
      d.1 ≠ connKey "r1" "A") :=
  ⟨WF_empty, c10_stale_cleanup_erases_replacement (fun _ => false) (fun _ => false)
    emptyManager WF_empty "r1" "A" 1 2⟩
